import Mathlib

/-!
Shallow embedding of the schema-validation and derived-value core of the
dynamic-form-builder repository (src/src/utils/validation.ts,
src/src/utils/derivedFields.ts, src/src/pages/createPage.tsx and the
field-configuration components), together with theorems settling the
frozen claims about it.

JavaScript runtime values are modelled as follows: machine floats become
rationals (every value the modelled paths produce is a finite decimal),
strings become Lean strings processed as character lists, `null` and
`undefined` are separate constructors of the value type, and the builtin
coercions `Number(...)`, `parseFloat(...)` and `x?.toString() || ''` are
modelled by explicit total functions on the fragment of their domain the
application exercises (decimal literals; ISO `yyyy-mm-dd` dates, the
format produced by HTML date inputs; no exponents, hex literals or
infinities, and UTC = local time).
-/

namespace FormBuilder

/-- Model of the field-type union in src/src/types/index.ts. -/
inductive FieldType where
  | text | number | textarea | select | radio | checkbox | date
deriving DecidableEq

/-- Model of the validation-rule-type union in src/src/types/index.ts. -/
inductive ValidationRuleType where
  | notEmpty | minLength | maxLength | email | password
deriving DecidableEq

/-- Model of the ValidationRule interface: type, optional numeric bound, message. -/
structure ValidationRule where
  type : ValidationRuleType
  value : Option ℚ
  message : String
deriving DecidableEq

/-- Model of the runtime values a form field can hold (the FieldValue union plus
the `undefined` that reaches `validateField` through missing map entries). -/
inductive FieldValue where
  | str (s : String)
  | num (q : ℚ)
  | bool (b : Bool)
  | list (xs : List String)
  | null
  | undef
deriving DecidableEq

/-- Model of the DerivedFieldConfig interface. -/
structure DerivedFieldConfig where
  parentFieldIds : List String
  formula : String
deriving DecidableEq

/-- Model of the FormField interface. -/
structure FormField where
  id : String
  type : FieldType
  label : String
  required : Bool
  defaultValue : FieldValue
  validationRules : List ValidationRule
  options : Option (List String)
  isDerived : Bool
  derivedConfig : Option DerivedFieldConfig
deriving DecidableEq

/-- Characters the JavaScript `\s` class / `trim()` strip, restricted to the
code points the application can produce. -/
def isJsSpace (c : Char) : Bool :=
  c = ' ' || c = '\t' || c = '\n' || c = '\r' || c = '\x0b' || c = '\x0c' || c = ' '

/-- Model of JavaScript `String.prototype.trim` on a character list. -/
def jsTrim (cs : List Char) : List Char :=
  ((cs.dropWhile isJsSpace).reverse.dropWhile isJsSpace).reverse

/-- Numeric value of a digit character. -/
def digitVal (c : Char) : ℕ := c.toNat - '0'.toNat

/-- Numeric value of a digit string, most significant first. -/
def digitsVal (cs : List Char) : ℕ :=
  cs.foldl (fun acc c => 10 * acc + digitVal c) 0

/-- Fractional value of the digit string after a decimal point. -/
def fracVal (cs : List Char) : ℚ :=
  (digitsVal cs : ℚ) / (10 : ℚ) ^ cs.length

/-- Parse an unsigned decimal literal (`digits`, `digits.digits`, `digits.`,
or `.digits`) consuming the whole input; `none` models NaN. -/
def parseUnsignedDecimal (cs : List Char) : Option ℚ :=
  let ip := cs.takeWhile Char.isDigit
  let rest := cs.drop ip.length
  match rest with
  | [] => if ip.isEmpty then none else some (digitsVal ip : ℚ)
  | '.' :: fp =>
      if fp.all Char.isDigit && !(ip.isEmpty && fp.isEmpty) then
        some ((digitsVal ip : ℚ) + fracVal fp)
      else none
  | _ => none

/-- Model of the JavaScript `Number(string)` coercion on the decimal fragment:
trim whitespace, the empty string is `0`, otherwise a complete signed decimal
literal; `none` models NaN. -/
def jsStrToNumber (s : String) : Option ℚ :=
  let t := jsTrim s.toList
  if t.isEmpty then some 0
  else
    match t with
    | '+' :: rest => parseUnsignedDecimal rest
    | '-' :: rest => (parseUnsignedDecimal rest).map Neg.neg
    | cs => parseUnsignedDecimal cs

/-- Longest-prefix unsigned decimal parse used by `parseFloat`. -/
def parseFloatUnsigned (cs : List Char) : Option ℚ :=
  let ip := cs.takeWhile Char.isDigit
  let rest := cs.drop ip.length
  let fp := match rest with
    | '.' :: r => r.takeWhile Char.isDigit
    | _ => []
  if ip.isEmpty && fp.isEmpty then none
  else some ((digitsVal ip : ℚ) + fracVal fp)

/-- Model of the JavaScript `parseFloat(string)` coercion on the decimal
fragment: skip leading whitespace, optional sign, then the longest numeric
prefix, ignoring trailing junk; `none` models NaN. -/
def jsParseFloat (s : String) : Option ℚ :=
  match s.toList.dropWhile isJsSpace with
  | '+' :: rest => parseFloatUnsigned rest
  | '-' :: rest => (parseFloatUnsigned rest).map Neg.neg
  | cs => parseFloatUnsigned cs

/-- Render an integer the way JavaScript stringifies integral numbers. -/
def intToStr (i : ℤ) : String :=
  if i < 0 then "-" ++ Nat.repr i.natAbs else Nat.repr i.natAbs

/-- Render a rational as a finite decimal where one of at most 400 digits
exists (every float the application produces is such a value); other
rationals, which correspond to no JavaScript number, fall back to a
fraction rendering. -/
def numToString (q : ℚ) : String :=
  if q.den = 1 then intToStr q.num
  else
    match (List.range 400).find? (fun k => (q * (10 : ℚ) ^ k).den = 1) with
    | some k =>
        let scaled := (q * (10 : ℚ) ^ k).num.natAbs
        let ds := Nat.repr scaled
        let padded := if ds.length ≤ k then
            String.mk (List.replicate (k + 1 - ds.length) '0') ++ ds
          else ds
        let point := padded.length - k
        (if q.num < 0 then "-" else "") ++
          (padded.take point) ++ "." ++ (padded.drop point)
    | none => intToStr q.num ++ "/" ++ Nat.repr q.den

/-- Model of `value.toString()` on a FieldValue (arrays join with commas,
booleans print their name). -/
def toStringJS : FieldValue → String
  | .str s => s
  | .num q => numToString q
  | .bool b => if b then "true" else "false"
  | .list xs => String.intercalate "," xs
  | .null => ""
  | .undef => ""

/-- Model of the JavaScript `Number(value)` coercion on FieldValues:
numbers pass through, `null` is `0`, `undefined` is NaN, booleans are 0/1,
strings and arrays go through the string coercion. -/
def jsToNumber : FieldValue → Option ℚ
  | .num q => some q
  | .null => some 0
  | .undef => none
  | .bool b => some (if b then 1 else 0)
  | .str s => jsStrToNumber s
  | .list xs => jsStrToNumber (String.intercalate "," xs)

/-- Decide whether a character is acceptable inside the `[^\s@]` classes of
the email regular expression. -/
def emailOkChar (c : Char) : Bool := !isJsSpace c && c ≠ '@'

/-- Split a character list at the first occurrence of a character. -/
def splitAtChar (c : Char) : List Char → Option (List Char × List Char)
  | [] => none
  | x :: xs =>
      if x = c then some ([], xs)
      else (splitAtChar c xs).map (fun p => (x :: p.1, p.2))

/-- Decide whether the part after the `@` contains a dot that has at least one
character on each side, the shape forced by the `[^\s@]+\.[^\s@]+` tail. -/
def hasInnerDot (r : List Char) : Bool :=
  ((r.drop 1).dropLast).any (· = '.')

/-- Model of the test of the email regular expression
`^[^\s@]+@[^\s@]+\.[^\s@]+$` from validation.ts: some characters before a
single `@`, some after, all outside whitespace, and a dot strictly inside
the part after the `@`. -/
def emailRegexMatches (s : String) : Bool :=
  match splitAtChar '@' s.toList with
  | none => false
  | some (l, r) => !l.isEmpty && l.all emailOkChar && r.all emailOkChar && hasInnerDot r

/-- Characters the `.` of the password regular expression refuses. -/
def isLineTerminator (c : Char) : Bool :=
  c = '\n' || c = '\r' || c = ' ' || c = ' '

/-- Model of the test of the password regular expression
`^(?=.*\d)(?=.*[a-z]).{8,}$` from validation.ts. -/
def passwordRegexMatches (s : String) : Bool :=
  let cs := s.toList
  cs.length ≥ 8 && cs.all (fun c => !isLineTerminator c) &&
    cs.any Char.isDigit && cs.any (fun c => 'a' ≤ c && c ≤ 'z')

/-- Embedding of validateRule from src/src/utils/validation.ts: evaluate one
rule against a value, returning the rule's message exactly when the rule's
failure branch fires. -/
def validateRule (rule : ValidationRule) (value : FieldValue) (fieldType : FieldType) :
    Option String :=
  let stringValue := toStringJS value
  match rule.type with
  | .notEmpty =>
      if fieldType = .checkbox then
        let arrayValue := match value with | .list xs => xs | _ => []
        if arrayValue.length = 0 then some rule.message else none
      else
        if (jsTrim stringValue.toList).isEmpty then some rule.message else none
  | .minLength =>
      if fieldType = .number then
        match jsToNumber value with
        | some numValue =>
            if numValue < rule.value.getD 0 then some rule.message else none
        | none => none
      else
        if (stringValue.length : ℚ) < rule.value.getD 0 then some rule.message else none
  | .maxLength =>
      if fieldType = .number then
        match jsToNumber value with
        | some numValue =>
            if numValue > rule.value.getD 0 then some rule.message else none
        | none => none
      else
        if (stringValue.length : ℚ) > rule.value.getD 0 then some rule.message else none
  | .email =>
      if stringValue ≠ "" && !emailRegexMatches stringValue then some rule.message
      else none
  | .password =>
      if stringValue ≠ "" && !passwordRegexMatches stringValue then some rule.message
      else none

/-- Loop body of validateField: JavaScript `if (error) return error` treats the
empty string as falsy, so a failure carrying an empty message is skipped. -/
def firstError (rules : List ValidationRule) (value : FieldValue) (fieldType : FieldType) :
    Option String :=
  match rules with
  | [] => none
  | rule :: rest =>
      match validateRule rule value fieldType with
      | some error => if error = "" then firstError rest value fieldType else some error
      | none => firstError rest value fieldType

/-- Embedding of validateField from src/src/utils/validation.ts. -/
def validateField (field : FormField) (value : FieldValue) : Option String :=
  firstError field.validationRules value field.type

/-- Embedding of getAvailableValidationRules from src/src/utils/validation.ts. -/
def getAvailableValidationRules (fieldType : FieldType) : List ValidationRuleType :=
  match fieldType with
  | .text | .textarea =>
      [.notEmpty, .minLength, .maxLength, .email, .password]
  | .number => [.notEmpty, .minLength, .maxLength]
  | .select | .radio => [.notEmpty]
  | .checkbox => [.notEmpty]
  | .date => [.notEmpty]

/-- Calendar date as the modelled JavaScript Date exposes it: year,
one-based month, day of month (UTC = local time). -/
structure JsDate where
  year : ℤ
  month : ℕ
  day : ℕ
deriving DecidableEq

/-- Gregorian leap-year test, as the host Date implementation applies it. -/
def isLeapYear (y : ℤ) : Bool := (y % 4 = 0 && y % 100 ≠ 0) || y % 400 = 0

/-- Number of days of a one-based month in a given year. -/
def daysInMonth (y : ℤ) (m : ℕ) : ℕ :=
  match m with
  | 1 => 31 | 2 => if isLeapYear y then 29 else 28
  | 3 => 31 | 4 => 30 | 5 => 31 | 6 => 30 | 7 => 31
  | 8 => 31 | 9 => 30 | 10 => 31 | 11 => 30 | 12 => 31
  | _ => 0

/-- Model of `new Date(string)` on the ISO `yyyy-mm-dd` fragment the HTML
date inputs produce: four digits, dash, two digits, dash, two digits, with
month and day in calendar range; `none` models an Invalid Date. -/
def parseDateISO (s : String) : Option JsDate :=
  match s.toList with
  | [y1, y2, y3, y4, '-', m1, m2, '-', d1, d2] =>
      if [y1, y2, y3, y4, m1, m2, d1, d2].all Char.isDigit then
        let y : ℤ := (digitsVal [y1, y2, y3, y4] : ℤ)
        let m := digitsVal [m1, m2]
        let d := digitsVal [d1, d2]
        if 1 ≤ m && m ≤ 12 && 1 ≤ d && d ≤ daysInMonth y m then
          some ⟨y, m, d⟩
        else none
      else none
  | _ => none

/-- Value snapshot a preview session supplies: field id to current value,
with `none` for ids never written (JavaScript `undefined`). -/
def PreviewData : Type := String → Option FieldValue

/-- Embedding of calculateSum from src/src/utils/derivedFields.ts: fold the
parent ids, taking numbers directly and otherwise running
`parseFloat(value?.toString() || '0')`, with NaN contributing 0. -/
def calculateSum (parentFieldIds : List String) (formData : PreviewData) : ℚ :=
  parentFieldIds.foldl
    (fun sum fieldId =>
      let numValue : Option ℚ :=
        match formData fieldId with
        | some (.num q) => some q
        | some v =>
            let s := toStringJS v
            jsParseFloat (if s = "" then "0" else s)
        | none => jsParseFloat "0"
      sum + numValue.getD 0)
    0

/-- Embedding of calculateAge from src/src/utils/derivedFields.ts, with the
ambient clock made explicit as a `today` argument: missing, empty or
unparsable birthdates give 0, otherwise the year difference is decremented
when this year's anniversary has not occurred and clamped at 0. -/
def calculateAge (birthdateFieldId : String) (formData : PreviewData)
    (today : JsDate) : ℤ :=
  let birthdate : Option String := (formData birthdateFieldId).map toStringJS
  match birthdate with
  | none => 0
  | some bs =>
      if bs = "" then 0
      else
        match parseDateISO bs with
        | none => 0
        | some birthDate =>
            let age := today.year - birthDate.year
            let monthDiff : ℤ := (today.month : ℤ) - (birthDate.month : ℤ)
            let age :=
              if monthDiff < 0 ∨ (monthDiff = 0 ∧ (today.day : ℤ) < (birthDate.day : ℤ))
              then age - 1 else age
            max 0 age

/-- Decide JavaScript falsiness of a FieldValue (`null`, `undefined`, the
empty string, 0 and `false`; an empty array is truthy). -/
def isFalsy : FieldValue → Bool
  | .null => true
  | .undef => true
  | .str s => s = ""
  | .num q => q = 0
  | .bool b => !b
  | .list _ => false

/-- Embedding of calculateDerivedValue from src/src/utils/derivedFields.ts. -/
def calculateDerivedValue (field : FormField) (formData : PreviewData)
    (today : JsDate) : FieldValue :=
  match field.isDerived, field.derivedConfig with
  | true, some config =>
      match config.formula with
      | "sum" => .num (calculateSum config.parentFieldIds formData)
      | "age_from_birthdate" =>
          match config.parentFieldIds.head? with
          | some parentId => .num ((calculateAge parentId formData today : ℤ) : ℚ)
          | none => .num 0
      | _ => .str ""
  | _, _ => if isFalsy field.defaultValue then .str "" else field.defaultValue

/-- Default message the panel attaches to a fresh notEmpty rule
(src/unnamed/part_004, handleRequiredToggle). -/
def notEmptyMessage (fieldType : FieldType) : String :=
  if fieldType = .checkbox then "Please select at least one option"
  else "This field is required"

/-- Decide whether a rule is the notEmpty rule. -/
def isNotEmptyRule (rule : ValidationRule) : Bool := rule.type = .notEmpty

/-- Embedding of handleRequiredToggle from the field-configuration panel
(src/unnamed/part_004, lines 89-115): switching on unshifts a notEmpty rule
when none exists, switching off filters every notEmpty rule out, and the
required flag follows the switch. -/
def handleRequiredToggle (checked : Bool) (field : FormField) : FormField :=
  let currentRules := field.validationRules
  let newRules :=
    if checked then
      if currentRules.any isNotEmptyRule then currentRules
      else ⟨.notEmpty, none, notEmptyMessage field.type⟩ :: currentRules
    else currentRules.filter (fun rule => !isNotEmptyRule rule)
  { field with required := checked, validationRules := newRules }

/-- Embedding of handleValidationRulesChange from the field-configuration
panel (src/unnamed/part_004, lines 117-123): the required flag is recomputed
as notEmpty membership of the new rule list. -/
def handleValidationRulesChange (rules : List ValidationRule) (field : FormField) :
    FormField :=
  { field with validationRules := rules, required := rules.any isNotEmptyRule }

/-- Embedding of deleteRule from the validation-rules editor
(src/unnamed/part_005, lines 91-100): when the deleted rule is notEmpty the
required toggle is switched off first, then the shortened list is pushed
through handleValidationRulesChange. -/
def deleteRule (index : ℕ) (field : FormField) : FormField :=
  let ruleToDelete := field.validationRules.get? index
  let newRules := field.validationRules.eraseIdx index
  let field1 :=
    if (ruleToDelete.map (fun r => r.type)) = some .notEmpty then
      handleRequiredToggle false field
    else field
  handleValidationRulesChange newRules field1

/-- Embedding of handleFieldTypeChange from the field-configuration panel
(src/unnamed/part_004, lines 125-154): options are cleared outside choice
types, derived status survives only on number, and crossing the checkbox
boundary in either direction resets the default value to the empty string. -/
def handleFieldTypeChange (newType : FieldType) (field : FormField) : FormField :=
  let options :=
    if !([FieldType.select, .radio, .checkbox].contains newType) then none
    else some (field.options.getD [])
  let isDerived := match newType with
    | .number => field.isDerived
    | _ => false
  let derivedConfig := match newType with
    | .number => field.derivedConfig
    | _ => none
  let defaultValue :=
    if (field.type = .checkbox && newType ≠ .checkbox) ||
        (field.type ≠ .checkbox && newType = .checkbox) then
      FieldValue.str ""
    else field.defaultValue
  { field with type := newType, options := options, isDerived := isDerived,
               derivedConfig := derivedConfig, defaultValue := defaultValue }

/-- Filter body of getRelevantRules: email survives only on the text-like
members of the FieldType union (the source also lists the literal `email`,
which is not a FieldType), password only on text (the source also lists the
literal `password`, not a FieldType), and the length rules are dropped for
checkbox, radio and select. -/
def ruleRelevant (fieldType : FieldType) (rule : ValidationRule) : Bool :=
  if rule.type = .email ∧ ¬(fieldType = .text ∨ fieldType = .textarea) then
    false
  else if rule.type = .password ∧ ¬(fieldType = .text) then
    false
  else if (rule.type = .minLength ∨ rule.type = .maxLength) ∧
      (fieldType = .checkbox ∨ fieldType = .radio ∨ fieldType = .select) then
    false
  else true

/-- Embedding of getRelevantRules from the validation-rules editor
(src/unnamed/part_005, lines 152-169), the filter its cleanup effect applies
to the rule list after a type change. -/
def getRelevantRules (fieldType : FieldType) (rules : List ValidationRule) :
    List ValidationRule :=
  rules.filter (ruleRelevant fieldType)

/-- Embedding of the per-field body of the derived-field cleanup effect in
src/src/pages/createPage.tsx (lines 169-206): parent ids are pruned to ids
present in the field list, and a derived field whose pruned list is empty is
demoted. -/
def cleanupField (fields : List FormField) (field : FormField) : FormField :=
  if field.isDerived then
    match field.derivedConfig with
    | some config =>
        let validParentIds := config.parentFieldIds.filter
          (fun parentId => fields.any (fun f => f.id = parentId))
        if validParentIds.length = 0 then
          { field with isDerived := false, derivedConfig := none }
        else if validParentIds.length ≠ config.parentFieldIds.length then
          { field with derivedConfig := some { config with parentFieldIds := validParentIds } }
        else field
    | none => field
  else field

/-- Embedding of the derived-field cleanup effect of createPage.tsx applied
to a whole field list. -/
def cleanupDerivedFields (fields : List FormField) : List FormField :=
  fields.map (cleanupField fields)

/-- Embedding of the deleteField reducer of the form-builder store slice
(src/src/store/slices/savedFormsSlice.ts, second embedded document, lines
120-125): the current form's field list is filtered to the fields whose id
differs from the removed one. -/
def deleteField (fieldId : String) (fields : List FormField) : List FormField :=
  fields.filter (fun f => f.id ≠ fieldId)

/-- Removal of a field followed by the cleanup pass createPage.tsx runs on
the resulting field list. -/
def deleteFieldAndCleanup (fieldId : String) (fields : List FormField) :
    List FormField :=
  cleanupDerivedFields (deleteField fieldId fields)

/-- Decide whether a rule produces a truthy error for a value: JavaScript
`if (error)` accepts exactly the non-empty messages. -/
def truthyError (rule : ValidationRule) (value : FieldValue) (t : FieldType) : Bool :=
  match validateRule rule value t with
  | some error => error != ""
  | none => false

lemma truthyError_of_none {rule : ValidationRule} {value : FieldValue} {t : FieldType}
    (h : validateRule rule value t = none) : truthyError rule value t = false := by
  unfold truthyError; rw [h]

lemma truthyError_of_empty {rule : ValidationRule} {value : FieldValue} {t : FieldType}
    (h : validateRule rule value t = some "") : truthyError rule value t = false := by
  unfold truthyError; rw [h]; simp

lemma truthyError_of_some_ne {rule : ValidationRule} {value : FieldValue} {t : FieldType}
    {e : String} (h : validateRule rule value t = some e) (he : e ≠ "") :
    truthyError rule value t = true := by
  unfold truthyError; rw [h]; simpa using he

lemma firstError_cons (r : ValidationRule) (rs : List ValidationRule)
    (value : FieldValue) (t : FieldType) :
    firstError (r :: rs) value t =
      match validateRule r value t with
      | some error => if error = "" then firstError rs value t else some error
      | none => firstError rs value t := rfl

/-- Characterization of the loop of validateField: it returns `some m` exactly
when some rule fails with the non-empty message `m` and every earlier rule
produces no truthy error. -/
lemma firstError_eq_some_iff (value : FieldValue) (t : FieldType) (m : String) :
    ∀ rules : List ValidationRule,
      firstError rules value t = some m ↔
        ∃ l₁ rule l₂, rules = l₁ ++ rule :: l₂ ∧
          validateRule rule value t = some m ∧ m ≠ "" ∧
          ∀ r ∈ l₁, truthyError r value t = false := by
  intro rules
  induction rules with
  | nil =>
      simp only [firstError]
      constructor
      · intro h; cases h
      · rintro ⟨l₁, rule, l₂, hsplit, -⟩
        exact absurd hsplit (by simp)
  | cons r rs ih =>
      rw [firstError_cons]
      cases h : validateRule r value t with
      | none =>
          simp only []
          rw [ih]
          constructor
          · rintro ⟨l₁, rule, l₂, hsplit, hrule, hm, hpre⟩
            refine ⟨r :: l₁, rule, l₂, by simp [hsplit], hrule, hm, ?_⟩
            intro x hx
            rcases List.mem_cons.mp hx with hx | hx
            · exact hx ▸ truthyError_of_none h
            · exact hpre x hx
          · rintro ⟨l₁, rule, l₂, hsplit, hrule, hm, hpre⟩
            cases l₁ with
            | nil =>
                simp only [List.nil_append, List.cons.injEq] at hsplit
                rw [hsplit.1] at h
                rw [h] at hrule
                cases hrule
            | cons a l₁' =>
                simp only [List.cons_append, List.cons.injEq] at hsplit
                exact ⟨l₁', rule, l₂, hsplit.2, hrule, hm,
                  fun x hx => hpre x (List.mem_cons_of_mem a hx)⟩
      | some e =>
          simp only []
          by_cases he : e = ""
          · rw [if_pos he]
            subst he
            rw [ih]
            constructor
            · rintro ⟨l₁, rule, l₂, hsplit, hrule, hm, hpre⟩
              refine ⟨r :: l₁, rule, l₂, by simp [hsplit], hrule, hm, ?_⟩
              intro x hx
              rcases List.mem_cons.mp hx with hx | hx
              · exact hx ▸ truthyError_of_empty h
              · exact hpre x hx
            · rintro ⟨l₁, rule, l₂, hsplit, hrule, hm, hpre⟩
              cases l₁ with
              | nil =>
                  simp only [List.nil_append, List.cons.injEq] at hsplit
                  rw [hsplit.1] at h
                  rw [h] at hrule
                  injection hrule with hme
                  exact absurd hme.symm hm
              | cons a l₁' =>
                  simp only [List.cons_append, List.cons.injEq] at hsplit
                  exact ⟨l₁', rule, l₂, hsplit.2, hrule, hm,
                    fun x hx => hpre x (List.mem_cons_of_mem a hx)⟩
          · rw [if_neg he]
            constructor
            · intro hsome
              injection hsome with hme
              exact ⟨[], r, rs, rfl, hme ▸ h, hme ▸ he, by simp⟩
            · rintro ⟨l₁, rule, l₂, hsplit, hrule, hm, hpre⟩
              cases l₁ with
              | nil =>
                  simp only [List.nil_append, List.cons.injEq] at hsplit
                  rw [hsplit.1] at h
                  rw [h] at hrule
                  exact hrule
              | cons a l₁' =>
                  simp only [List.cons_append, List.cons.injEq] at hsplit
                  have := hpre a (List.mem_cons_self a l₁')
                  rw [← hsplit.1] at this
                  rw [truthyError_of_some_ne h he] at this
                  simp at this

/-- The loop of validateField returns no error exactly when no rule produces a
truthy error. -/
lemma firstError_eq_none_iff (value : FieldValue) (t : FieldType) :
    ∀ rules : List ValidationRule,
      firstError rules value t = none ↔
        ∀ r ∈ rules, truthyError r value t = false := by
  intro rules
  induction rules with
  | nil => simp [firstError]
  | cons r rs ih =>
      rw [firstError_cons]
      cases h : validateRule r value t with
      | none =>
          simp only []
          rw [ih]
          constructor
          · intro hall x hx
            rcases List.mem_cons.mp hx with hx | hx
            · exact hx ▸ truthyError_of_none h
            · exact hall x hx
          · intro hall x hx
            exact hall x (List.mem_cons_of_mem r hx)
      | some e =>
          simp only []
          by_cases he : e = ""
          · rw [if_pos he]
            subst he
            rw [ih]
            constructor
            · intro hall x hx
              rcases List.mem_cons.mp hx with hx | hx
              · exact hx ▸ truthyError_of_empty h
              · exact hall x hx
            · intro hall x hx
              exact hall x (List.mem_cons_of_mem r hx)
          · rw [if_neg he]
            constructor
            · intro hsome; cases hsome
            · intro hall
              have := hall r (List.mem_cons_self r rs)
              rw [truthyError_of_some_ne h he] at this
              cases this

/-- Every message validateRule can return is the rule's own message field. -/
lemma validateRule_message {rule : ValidationRule} {value : FieldValue}
    {t : FieldType} {m : String} (h : validateRule rule value t = some m) :
    m = rule.message := by
  unfold validateRule at h
  rcases rule with ⟨rt, rv, rmsg⟩
  cases rt <;> simp only [] at h <;>
    (first
      | (split at h <;>
          (first
            | (split at h <;> simp_all)
            | simp_all))
      | simp_all)

/-- C1 (amended): validateField evaluates the rules in list order and returns
the first truthy failure, that is, the message of the first rule that fails
with a non-empty message, skipping failing rules whose message is empty
(JavaScript `if (error)` falsiness); it returns null when no rule produces a
truthy message, never aggregates several failures, and every returned message
is the failing rule's own message; in particular for a field with rules
[notEmpty, minLength 3] carrying the panel's default messages and value "" it
returns the notEmpty message only. -/
theorem claim_C1_validateField_first_failure :
    (∀ (field : FormField) (value : FieldValue) (m : String),
      validateField field value = some m ↔
        ∃ l₁ rule l₂, field.validationRules = l₁ ++ rule :: l₂ ∧
          validateRule rule value field.type = some m ∧ m ≠ "" ∧
          ∀ r ∈ l₁, truthyError r value field.type = false) ∧
    (∀ (field : FormField) (value : FieldValue),
      validateField field value = none ↔
        ∀ r ∈ field.validationRules, truthyError r value field.type = false) ∧
    (∀ (field : FormField) (value : FieldValue) (m : String),
      validateField field value = some m →
        ∃ rule ∈ field.validationRules, m = rule.message) ∧
    validateField
      ⟨"f1", .text, "Name", true, .str "",
        [⟨.notEmpty, none, "This field is required"⟩,
         ⟨.minLength, some 3, "Minimum length required"⟩],
        none, false, none⟩ (.str "") = some "This field is required" := by
  refine ⟨?_, ?_, ?_, ?_⟩
  · intro field value m
    exact firstError_eq_some_iff value field.type m field.validationRules
  · intro field value
    exact firstError_eq_none_iff value field.type field.validationRules
  · intro field value m h
    obtain ⟨l₁, rule, l₂, hsplit, hrule, -, -⟩ :=
      (firstError_eq_some_iff value field.type m field.validationRules).mp h
    exact ⟨rule, by rw [hsplit]; exact List.mem_append_right l₁ (List.mem_cons_self rule l₂),
      validateRule_message hrule⟩
  · rfl

/-- C1 witness: the returned-message clause applied at the concrete
first-match-wins instance. -/
theorem claim_C1_witness :
    ∃ rule ∈ ([⟨.notEmpty, none, "This field is required"⟩,
        ⟨.minLength, some 3, "Minimum length required"⟩] :
        List ValidationRule),
      "This field is required" = rule.message :=
  claim_C1_validateField_first_failure.2.2.1
    ⟨"f1", .text, "Name", true, .str "",
      [⟨.notEmpty, none, "This field is required"⟩,
       ⟨.minLength, some 3, "Minimum length required"⟩],
      none, false, none⟩ (.str "") "This field is required"
    claim_C1_validateField_first_failure.2.2.2

/-- C1 counterexample: with rules [notEmpty, minLength 3] where the notEmpty
message is the empty string and value "", the first rule that fails is the
notEmpty rule (validateRule returns its message ""), yet validateField returns
the second failing rule's message, not the first one's, because JavaScript
`if (error)` treats the empty string as falsy. -/
theorem claim_C1_counterexample :
    validateRule ⟨.notEmpty, none, ""⟩ (.str "") .text = some "" ∧
    validateField
      ⟨"f1", .text, "Name", false, .str "",
        [⟨.notEmpty, none, ""⟩, ⟨.minLength, some 3, "Minimum length required"⟩],
        none, false, none⟩ (.str "") = some "Minimum length required" ∧
    ("Minimum length required" : String) ≠ "" :=
  ⟨rfl, rfl, by decide⟩

/-- C10: a field whose validationRules list is empty validates every value to
null, whatever its required flag and the rest of its configuration: the
required boolean alone never produces a validation error. -/
theorem claim_C10_empty_rules_no_error
    (id label : String) (t : FieldType) (required : Bool) (dv : FieldValue)
    (opts : Option (List String)) (isD : Bool) (dc : Option DerivedFieldConfig)
    (value : FieldValue) :
    validateField ⟨id, t, label, required, dv, [], opts, isD, dc⟩ value = none :=
  rfl

/-- C10 witness: a required text field with no rules accepts the empty string. -/
theorem claim_C10_witness :
    validateField ⟨"f1", .text, "Name", true, .str "", [], none, false, none⟩
      (.str "") = none :=
  claim_C10_empty_rules_no_error "f1" "Name" .text true (.str "") none false none
    (.str "")

/-- Erasing the index of the sole element satisfying a predicate leaves a list
in which no element satisfies it. -/
lemma eraseIdx_any_eq_false {α : Type} (p : α → Bool) :
    ∀ (l : List α) (i : ℕ) (a : α), l.get? i = some a → p a = true →
      l.countP p ≤ 1 → (l.eraseIdx i).any p = false := by
  intro l
  induction l with
  | nil => intro i a h; cases h
  | cons x xs ih =>
      intro i a hget hp hcount
      cases i with
      | zero =>
          rw [List.get?_cons_zero] at hget
          injection hget with hax
          subst hax
          rw [List.eraseIdx_cons_zero]
          rw [List.countP_cons, if_pos hp] at hcount
          have hzero : xs.countP p = 0 := by omega
          rw [← Bool.not_eq_true]
          intro hany
          obtain ⟨b, hb, hpb⟩ := List.any_eq_true.mp hany
          exact (List.countP_eq_zero.mp hzero b hb) hpb
      | succ i =>
          rw [List.get?_cons_succ] at hget
          have hmem : a ∈ xs := List.get?_mem hget
          have hposxs : 0 < xs.countP p :=
            List.countP_pos_iff.mpr ⟨a, hmem, hp⟩
          rw [List.countP_cons] at hcount
          have hpx : p x = false := by
            cases hx : p x with
            | false => rfl
            | true => rw [if_pos hx] at hcount; omega
          rw [List.eraseIdx_cons_succ, List.any_cons, hpx]
          have := ih i a hget hp (by omega)
          simp [this]

/-- C2: the required flag and notEmpty-rule membership stay in sync on every
modelled edit path: the required toggle switching on inserts a notEmpty rule
at the head of the rule list when none exists and sets the flag; switching
off removes every notEmpty rule and clears the flag; a rule-list replacement
recomputes the flag as notEmpty membership; and deleting the (sole) notEmpty
rule directly from the rule list leaves required false with no notEmpty rule
remaining. -/
theorem claim_C2_required_notEmpty_sync :
    (∀ field : FormField,
      (handleRequiredToggle true field).required = true ∧
      (handleRequiredToggle true field).validationRules.any isNotEmptyRule = true ∧
      (field.validationRules.any isNotEmptyRule = false →
        (handleRequiredToggle true field).validationRules =
          ⟨.notEmpty, none, notEmptyMessage field.type⟩ :: field.validationRules)) ∧
    (∀ field : FormField,
      (handleRequiredToggle false field).required = false ∧
      (handleRequiredToggle false field).validationRules.any isNotEmptyRule = false) ∧
    (∀ (rules : List ValidationRule) (field : FormField),
      (handleValidationRulesChange rules field).required =
        rules.any isNotEmptyRule ∧
      (handleValidationRulesChange rules field).validationRules = rules) ∧
    (∀ (field : FormField) (index : ℕ) (rule : ValidationRule),
      field.validationRules.get? index = some rule →
      rule.type = .notEmpty →
      field.validationRules.countP isNotEmptyRule ≤ 1 →
      (deleteRule index field).required = false ∧
      (deleteRule index field).validationRules.any isNotEmptyRule = false) := by
  refine ⟨?_, ?_, ?_, ?_⟩
  · intro field
    cases hany : field.validationRules.any isNotEmptyRule with
    | true =>
        refine ⟨rfl, ?_, ?_⟩
        · simp [handleRequiredToggle, hany]
        · intro hfalse
          exact Bool.noConfusion hfalse
    | false =>
        refine ⟨rfl, ?_, ?_⟩
        · simp [handleRequiredToggle, hany, isNotEmptyRule]
        · intro hfalse
          simp [handleRequiredToggle, hany]
  · intro field
    unfold handleRequiredToggle
    refine ⟨rfl, ?_⟩
    simp only [Bool.false_eq_true, if_false, List.any_filter]
    rw [← Bool.not_eq_true]
    intro hany
    obtain ⟨r, -, hr⟩ := List.any_eq_true.mp hany
    rcases Bool.eq_false_or_eq_true (isNotEmptyRule r) with hf | ht
    · rw [hf] at hr; cases hr
    · rw [ht] at hr; cases hr
  · intro rules field
    exact ⟨rfl, rfl⟩
  · intro field index rule hget htype hcount
    have hp : isNotEmptyRule rule = true := by
      unfold isNotEmptyRule; rw [htype]; rfl
    have herase :
        (field.validationRules.eraseIdx index).any isNotEmptyRule = false :=
      eraseIdx_any_eq_false isNotEmptyRule field.validationRules index rule
        hget hp hcount
    unfold deleteRule handleValidationRulesChange
    constructor
    · simp only [herase]
    · simpa using herase

/-- C2 witness: deleting the sole notEmpty rule (index 0) of a concrete field
switches required off and leaves no notEmpty rule. -/
theorem claim_C2_witness :
    (deleteRule 0
      ⟨"f1", .text, "Name", true, .str "",
        [⟨.notEmpty, none, "This field is required"⟩,
         ⟨.minLength, some 3, "Minimum length required"⟩],
        none, false, none⟩).required = false ∧
    (deleteRule 0
      ⟨"f1", .text, "Name", true, .str "",
        [⟨.notEmpty, none, "This field is required"⟩,
         ⟨.minLength, some 3, "Minimum length required"⟩],
        none, false, none⟩).validationRules.any isNotEmptyRule = false :=
  claim_C2_required_notEmpty_sync.2.2.2
    ⟨"f1", .text, "Name", true, .str "",
      [⟨.notEmpty, none, "This field is required"⟩,
       ⟨.minLength, some 3, "Minimum length required"⟩],
      none, false, none⟩ 0 ⟨.notEmpty, none, "This field is required"⟩
    rfl rfl (by decide)

/-- When the numeric coercion of the value is NaN, the number-typed min/max
bound branch of validateRule skips the comparison and reports no error. -/
lemma validateRule_number_skips_nan (rule : ValidationRule) (value : FieldValue)
    (htype : rule.type = .minLength ∨ rule.type = .maxLength)
    (hval : jsToNumber value = none) :
    validateRule rule value .number = none := by
  rcases rule with ⟨rt, rv, rm⟩
  rcases htype with h | h <;> (simp only [] at h; subst h) <;>
    (unfold validateRule; rw [hval]; rfl)

/-- C3 (amended): for a number-typed field whose rules are all minLength or
maxLength bounds, a value whose numeric coercion is NaN makes validateField
skip every bound comparison and return null — the rules do not fail on an
unparsable value (and nothing is thrown; the function is total). -/
theorem claim_C3_nan_skips_number_bounds (field : FormField) (value : FieldValue)
    (htype : field.type = .number)
    (hrules : ∀ r ∈ field.validationRules,
      r.type = .minLength ∨ r.type = .maxLength)
    (hval : jsToNumber value = none) :
    validateField field value = none := by
  unfold validateField
  rw [htype]
  rw [firstError_eq_none_iff]
  intro r hr
  exact truthyError_of_none (validateRule_number_skips_nan r value (hrules r hr) hval)

/-- C3 witness: the amended theorem applied to a concrete number field with a
minLength bound of 3 and the unparsable value "oops". -/
theorem claim_C3_witness :
    validateField
      ⟨"f1", .number, "Qty", false, .str "",
        [⟨.minLength, some 3, "Minimum length required"⟩], none, false, none⟩
      (.str "oops") = none :=
  claim_C3_nan_skips_number_bounds
    ⟨"f1", .number, "Qty", false, .str "",
      [⟨.minLength, some 3, "Minimum length required"⟩], none, false, none⟩
    (.str "oops") rfl
    (by intro r hr; simp only [List.mem_singleton] at hr; subst hr; exact Or.inl rfl)
    rfl

/-- C3 counterexample: a number field with a minLength rule bounded by 3 and
the non-empty unparsable value "oops" yields no error at all — the code skips
the comparison instead of reporting the rule as failing, contrary to the
claim. -/
theorem claim_C3_counterexample :
    validateField
      ⟨"f1", .number, "Qty", false, .str "",
        [⟨.minLength, some 3, "Minimum length required"⟩], none, false, none⟩
      (.str "oops") = none ∧
    toStringJS (.str "oops") ≠ "" ∧
    jsToNumber (.str "oops") = none :=
  ⟨rfl, by decide, rfl⟩

/-- C4 (amended): a type change crossing the checkbox boundary in either
direction coerces defaultValue to the empty string (an empty scalar, not an
empty list), and a type change that does not cross the boundary leaves
defaultValue unchanged. -/
theorem claim_C4_checkbox_boundary_default (field : FormField) (newType : FieldType) :
    ((field.type = .checkbox ↔ newType ≠ .checkbox) →
      (handleFieldTypeChange newType field).defaultValue = .str "") ∧
    ((field.type = .checkbox ↔ newType = .checkbox) →
      (handleFieldTypeChange newType field).defaultValue = field.defaultValue) := by
  constructor <;>
    · intro h
      by_cases hf : field.type = .checkbox <;> by_cases hn : newType = .checkbox <;>
        simp [hf, hn] at h ⊢ <;>
        simp [handleFieldTypeChange, hf, hn]

/-- C4 witness: the amended theorem applied to a text field with default
"hello" switching into checkbox. -/
theorem claim_C4_witness :
    (handleFieldTypeChange .checkbox
      ⟨"f1", .text, "Name", false, .str "hello", [], none, false, none⟩).defaultValue
      = .str "" :=
  (claim_C4_checkbox_boundary_default
    ⟨"f1", .text, "Name", false, .str "hello", [], none, false, none⟩ .checkbox).1
    (by simp)

/-- C4 counterexample: switching a text field with default "hello" into
checkbox sets defaultValue to the empty string, which is not the empty list
the claim requires. -/
theorem claim_C4_counterexample :
    (handleFieldTypeChange .checkbox
      ⟨"f1", .text, "Name", false, .str "hello", [], none, false, none⟩).defaultValue
      = .str "" ∧
    FieldValue.str "" ≠ FieldValue.list [] :=
  ⟨rfl, by decide⟩

/-- C6 (amended): after the type-change cleanup, the surviving rules are a
subset of the previous ones; email rules survive only on text or textarea,
password rules only on text, and minLength/maxLength rules never survive on
select, radio or checkbox; notEmpty rules always survive, and on a date field
minLength/maxLength rules are kept (they are not dropped, diverging from the
§4.1 table). -/
theorem claim_C6_type_change_rule_filter (fieldType : FieldType)
    (rules : List ValidationRule) :
    (∀ r ∈ getRelevantRules fieldType rules, r ∈ rules) ∧
    (∀ r ∈ getRelevantRules fieldType rules,
      (r.type = .email → fieldType = .text ∨ fieldType = .textarea) ∧
      (r.type = .password → fieldType = .text) ∧
      ((r.type = .minLength ∨ r.type = .maxLength) →
        fieldType ≠ .select ∧ fieldType ≠ .radio ∧ fieldType ≠ .checkbox)) ∧
    (∀ r ∈ rules, r.type = .notEmpty → r ∈ getRelevantRules fieldType rules) ∧
    (fieldType = .date → ∀ r ∈ rules,
      (r.type = .minLength ∨ r.type = .maxLength) →
      r ∈ getRelevantRules fieldType rules) := by
  refine ⟨?_, ?_, ?_, ?_⟩
  · intro r hr
    exact (List.mem_filter.mp hr).1
  · intro r hr
    obtain ⟨-, hrel⟩ := List.mem_filter.mp hr
    revert hrel
    rcases r with ⟨rt, rv, rm⟩
    cases rt <;> cases fieldType <;> simp [ruleRelevant]
  · intro r hr htype
    refine List.mem_filter.mpr ⟨hr, ?_⟩
    rcases r with ⟨rt, rv, rm⟩
    simp only [] at htype
    subst htype
    cases fieldType <;> simp [ruleRelevant]
  · intro hdate r hr htype
    subst hdate
    refine List.mem_filter.mpr ⟨hr, ?_⟩
    rcases r with ⟨rt, rv, rm⟩
    rcases htype with h | h <;> (simp only [] at h; subst h) <;>
      simp [ruleRelevant]

/-- C6 witness: the amended theorem applied on a date field keeping a
minLength rule. -/
theorem claim_C6_witness :
    (⟨.minLength, some 3, "Minimum length required"⟩ : ValidationRule) ∈
      getRelevantRules .date [⟨.minLength, some 3, "Minimum length required"⟩] :=
  (claim_C6_type_change_rule_filter .date
      [⟨.minLength, some 3, "Minimum length required"⟩]).2.2.2 rfl
    ⟨.minLength, some 3, "Minimum length required"⟩ (List.mem_singleton.mpr rfl)
    (Or.inl rfl)

/-- C6 counterexample: a date field keeps its minLength rule through the
type-change cleanup, although the claim (per the §4.1 table) requires
minLength/maxLength rules to be dropped when the new type is date. -/
theorem claim_C6_counterexample :
    getRelevantRules .date [⟨.minLength, some 3, "Minimum length required"⟩] =
      [⟨.minLength, some 3, "Minimum length required"⟩] ∧
    ([⟨.minLength, some 3, "Minimum length required"⟩] : List ValidationRule) ≠ [] :=
  ⟨rfl, by decide⟩

/-- Every parent id a processed derived field keeps after the cleanup pass
refers to a field present in the ambient field list. -/
lemma cleanupField_parents_valid (fields : List FormField) (field : FormField)
    (hder : (cleanupField fields field).isDerived = true) :
    ∀ cfg, (cleanupField fields field).derivedConfig = some cfg →
      ∀ pid ∈ cfg.parentFieldIds, fields.any (fun f => f.id = pid) = true := by
  intro cfg hcfg pid hpid
  unfold cleanupField at hder hcfg
  cases hd : field.isDerived with
  | false =>
      rw [hd] at hder
      simp only [Bool.false_eq_true, if_false] at hder
      rw [hder] at hd
      cases hd
  | true =>
      rw [hd] at hder hcfg
      simp only [if_true] at hder hcfg
      cases hdc : field.derivedConfig with
      | none =>
          rw [hdc] at hcfg
          rw [hcfg] at hdc
          exact absurd (congrArg Option.isSome hdc) (by simp)
      | some config =>
          rw [hdc] at hder hcfg
          simp only [] at hder hcfg
          by_cases hlen0 :
              (config.parentFieldIds.filter
                (fun parentId => fields.any (fun f => f.id = parentId))).length = 0
          · rw [if_pos hlen0] at hder
            cases hder
          · rw [if_neg hlen0] at hder hcfg
            by_cases hlen :
                (config.parentFieldIds.filter
                  (fun parentId => fields.any (fun f => f.id = parentId))).length ≠
                  config.parentFieldIds.length
            · rw [if_pos hlen] at hcfg
              simp only [Option.some.injEq] at hcfg
              rw [← hcfg] at hpid
              simp only [] at hpid
              exact (List.mem_filter.mp hpid).2
            · rw [if_neg hlen] at hcfg
              rw [hdc] at hcfg
              injection hcfg with hcfg
              subst hcfg
              push_neg at hlen
              exact List.filter_length_eq_length.mp hlen pid hpid

/-- C5: after a field is removed and the cleanup pass of createPage.tsx has
run, no remaining derived field's parentFieldIds contains the removed id; a
derived field all of whose parents are gone is demoted (isDerived false,
derivedConfig absent); and concretely, deleting the sole date parent of an
age_from_birthdate derived field demotes it. -/
theorem claim_C5_field_removal_cleanup :
    (∀ (fields : List FormField) (removedId : String) (f : FormField)
        (cfg : DerivedFieldConfig),
      f ∈ deleteFieldAndCleanup removedId fields →
      f.isDerived = true →
      f.derivedConfig = some cfg →
      removedId ∉ cfg.parentFieldIds) ∧
    (∀ (remaining : List FormField) (field : FormField) (cfg : DerivedFieldConfig),
      field.isDerived = true →
      field.derivedConfig = some cfg →
      cfg.parentFieldIds.all
        (fun pid => !(remaining.any (fun f => f.id = pid))) = true →
      (cleanupField remaining field).isDerived = false ∧
      (cleanupField remaining field).derivedConfig = none) ∧
    deleteFieldAndCleanup "bd"
      [⟨"bd", .date, "Birthdate", false, .str "", [], none, false, none⟩,
       ⟨"age", .number, "Age", false, .str "", [], none, true,
         some ⟨["bd"], "age_from_birthdate"⟩⟩] =
      [⟨"age", .number, "Age", false, .str "", [], none, false, none⟩] := by
  refine ⟨?_, ?_, ?_⟩
  · intro fields removedId f cfg hf hder hcfg
    intro hpid
    obtain ⟨g, -, hg⟩ := List.mem_map.mp hf
    rw [← hg] at hder hcfg
    have hvalid :=
      cleanupField_parents_valid (deleteField removedId fields) g hder cfg hcfg
        removedId hpid
    obtain ⟨f', hf', hid⟩ := List.any_eq_true.mp hvalid
    obtain ⟨-, hne⟩ := List.mem_filter.mp hf'
    rw [of_decide_eq_true hid] at hne
    simp at hne
  · intro remaining field cfg hder hcfg hall
    have hfilter :
        cfg.parentFieldIds.filter
          (fun parentId => remaining.any (fun f => f.id = parentId)) = [] := by
      rw [List.filter_eq_nil_iff]
      intro pid hpid
      have := List.all_eq_true.mp hall pid hpid
      simp only [Bool.not_eq_true'] at this
      simp [this]
    constructor <;>
      · unfold cleanupField
        rw [hder, if_pos rfl, hcfg]
        simp [hfilter]
  · decide

/-- C5 witness: removing one of two number parents of a sum field leaves a
derived field whose parent list no longer contains the removed id. -/
theorem claim_C5_witness :
    ("a" : String) ∉
      (⟨["b"], "sum"⟩ : DerivedFieldConfig).parentFieldIds :=
  claim_C5_field_removal_cleanup.1
    [⟨"a", .number, "A", false, .str "", [], none, false, none⟩,
     ⟨"b", .number, "B", false, .str "", [], none, false, none⟩,
     ⟨"s", .number, "Sum", false, .str "", [], none, true, some ⟨["a", "b"], "sum"⟩⟩]
    "a"
    ⟨"s", .number, "Sum", false, .str "", [], none, true, some ⟨["b"], "sum"⟩⟩
    ⟨["b"], "sum"⟩
    (by decide) rfl rfl

/-- The empty string never parses as a date. -/
lemma parseDateISO_empty : parseDateISO "" = none := rfl

/-- C7: computeDerivedValue's age formula returns 0 when the parent's value is
absent, stringifies to the empty string, or does not parse as a date; when it
parses, the result is the current year minus the birth year, decremented by
one exactly when the current (month, day) pair lexicographically precedes the
birth (month, day) pair, clamped below at 0; concretely, a birthdate exactly
18 years before today (same month and day) yields 18, and with today one day
before that anniversary (birthdate one day later) it yields 17. -/
theorem claim_C7_age_from_birthdate :
    (∀ (id : String) (formData : PreviewData) (today : JsDate),
      (formData id = none → calculateAge id formData today = 0) ∧
      (∀ v, formData id = some v → toStringJS v = "" →
        calculateAge id formData today = 0) ∧
      (∀ v, formData id = some v → toStringJS v ≠ "" →
        parseDateISO (toStringJS v) = none →
        calculateAge id formData today = 0) ∧
      (∀ v b, formData id = some v → parseDateISO (toStringJS v) = some b →
        calculateAge id formData today =
          max 0 (today.year - b.year -
            (if today.month < b.month ∨ (today.month = b.month ∧ today.day < b.day)
             then 1 else 0)))) ∧
    calculateAge "bd" (fun _ => some (.str "2008-10-12")) ⟨2026, 10, 12⟩ = 18 ∧
    calculateAge "bd" (fun _ => some (.str "2008-10-13")) ⟨2026, 10, 12⟩ = 17 := by
  refine ⟨?_, by decide, by decide⟩
  intro id formData today
  refine ⟨?_, ?_, ?_, ?_⟩
  · intro h
    unfold calculateAge
    rw [h]
    rfl
  · intro v hv hs
    unfold calculateAge
    rw [hv]
    simp only [Option.map_some']
    rw [if_pos hs]
  · intro v hv hs hparse
    unfold calculateAge
    rw [hv]
    simp only [Option.map_some']
    rw [if_neg hs, hparse]
  · intro v b hv hparse
    have hs : toStringJS v ≠ "" := by
      intro hempty
      rw [hempty, parseDateISO_empty] at hparse
      cases hparse
    unfold calculateAge
    rw [hv]
    simp only [Option.map_some']
    rw [if_neg hs, hparse]
    simp only []
    have hcond :
        ((today.month : ℤ) - (b.month : ℤ) < 0 ∨
          ((today.month : ℤ) - (b.month : ℤ) = 0 ∧ (today.day : ℤ) < (b.day : ℤ))) ↔
        (today.month < b.month ∨ (today.month = b.month ∧ today.day < b.day)) := by
      constructor <;> intro h <;> rcases h with h | ⟨h1, h2⟩
      · left; omega
      · right; omega
      · left; omega
      · right; omega
    by_cases hlex : today.month < b.month ∨ (today.month = b.month ∧ today.day < b.day)
    · rw [if_pos (hcond.mpr hlex), if_pos hlex]
    · rw [if_neg (fun hc => hlex (hcond.mp hc)), if_neg hlex]
      omega

/-- C7 witness: the general clause applied to a concrete unparsable birthdate. -/
theorem claim_C7_witness :
    calculateAge "bd" (fun _ => some (.str "not-a-date")) ⟨2026, 10, 12⟩ = 0 :=
  (claim_C7_age_from_birthdate.1 "bd" (fun _ => some (.str "not-a-date"))
      ⟨2026, 10, 12⟩).2.2.1 (.str "not-a-date") rfl (by decide) rfl

/-- Per-parent contribution of the sum formula: a numeric value contributes
itself, anything else contributes the parseFloat of its string form (with the
empty or missing string replaced by "0"), and NaN contributes 0. -/
def sumContribution (formData : PreviewData) (fieldId : String) : ℚ :=
  (match formData fieldId with
    | some (.num q) => some q
    | some v =>
        let s := toStringJS v
        jsParseFloat (if s = "" then "0" else s)
    | none => jsParseFloat "0").getD 0

/-- Folding additive contributions equals the sum of the mapped list. -/
lemma foldl_add_map (f : String → ℚ) :
    ∀ (l : List String) (init : ℚ),
      l.foldl (fun s a => s + f a) init = init + (l.map f).sum := by
  intro l
  induction l with
  | nil => intro init; simp
  | cons x xs ih =>
      intro init
      rw [List.foldl_cons, ih, List.map_cons, List.sum_cons]
      ring

lemma digitsVal_singleton_zero : digitsVal ['0'] = 0 := by decide

lemma fracVal_nil : fracVal ([] : List Char) = 0 := by
  unfold fracVal
  norm_num [digitsVal]

/-- parseFloat of the literal "0" is the number 0 (the fallback the sum
formula feeds missing or empty values through). -/
lemma jsParseFloat_zero_str : jsParseFloat "0" = some 0 := by
  have h : jsParseFloat "0" = some ((digitsVal ['0'] : ℚ) + fracVal []) := rfl
  rw [h, digitsVal_singleton_zero, fracVal_nil]
  norm_num

/-- Concrete value snapshot of the spec's sum example: parents valued
2, 3 and "oops". -/
def exampleSnapshot : PreviewData := fun pid =>
  if pid = "a" then some (.num 2)
  else if pid = "b" then some (.num 3)
  else if pid = "c" then some (.str "oops") else none

/-- C8: computeDerivedValue's sum formula returns the sum over parentFieldIds
of each parent's numeric contribution, where a missing value, a non-numeric
string (NaN parse) and any other unparsable value contribute 0 and a numeric
value contributes itself; concretely parents valued [2, 3, "oops"] sum to 5. -/
theorem claim_C8_sum_formula :
    (∀ (parentFieldIds : List String) (formData : PreviewData),
      calculateSum parentFieldIds formData =
        (parentFieldIds.map (sumContribution formData)).sum) ∧
    (∀ (formData : PreviewData) (pid : String),
      formData pid = none → sumContribution formData pid = 0) ∧
    (∀ (formData : PreviewData) (pid : String) (s : String),
      formData pid = some (.str s) → jsParseFloat s = none →
      sumContribution formData pid = 0) ∧
    (∀ (formData : PreviewData) (pid : String) (q : ℚ),
      formData pid = some (.num q) → sumContribution formData pid = q) ∧
    calculateSum ["a", "b", "c"] exampleSnapshot = 5 := by
  have hfold : ∀ (ids : List String) (fd : PreviewData),
      calculateSum ids fd = (ids.map (sumContribution fd)).sum := by
    intro ids fd
    have h : calculateSum ids fd =
        ids.foldl (fun s a => s + sumContribution fd a) 0 := rfl
    rw [h, foldl_add_map]
    ring
  refine ⟨hfold, ?_, ?_, ?_, ?_⟩
  · intro formData pid h
    unfold sumContribution
    rw [h]
    show (jsParseFloat "0").getD 0 = 0
    rw [jsParseFloat_zero_str]
    rfl
  · intro formData pid s h hnan
    unfold sumContribution
    rw [h]
    by_cases hs : s = ""
    · subst hs
      show (jsParseFloat "0").getD 0 = 0
      rw [jsParseFloat_zero_str]
      rfl
    · simp only [toStringJS, if_neg hs, hnan]
      rfl
  · intro formData pid q h
    unfold sumContribution
    rw [h]
    rfl
  · rw [hfold]
    have ha : sumContribution exampleSnapshot "a" = 2 := by
      unfold sumContribution exampleSnapshot
      rw [if_pos rfl]
      rfl
    have hb : sumContribution exampleSnapshot "b" = 3 := by
      unfold sumContribution exampleSnapshot
      rw [if_neg (by decide), if_pos rfl]
      rfl
    have hc : sumContribution exampleSnapshot "c" = 0 := by
      unfold sumContribution exampleSnapshot
      rw [if_neg (by decide), if_neg (by decide), if_pos rfl]
      rfl
    rw [List.map_cons, List.map_cons, List.map_cons, List.map_nil,
      List.sum_cons, List.sum_cons, List.sum_cons, List.sum_nil, ha, hb, hc]
    norm_num

/-- C8 witness: the missing-parent clause applied to an empty snapshot. -/
theorem claim_C8_witness :
    sumContribution (fun _ => none) "a" = 0 :=
  claim_C8_sum_formula.2.1 (fun _ => none) "a" rfl

/-- splitAtChar finds the first occurrence: a successful split reassembles the
list and the prefix avoids the separator. -/
lemma splitAtChar_eq_some (c : Char) :
    ∀ (l l₁ l₂ : List Char), splitAtChar c l = some (l₁, l₂) →
      l = l₁ ++ c :: l₂ ∧ c ∉ l₁ := by
  intro l
  induction l with
  | nil => intro l₁ l₂ h; cases h
  | cons x xs ih =>
      intro l₁ l₂ h
      unfold splitAtChar at h
      by_cases hx : x = c
      · rw [if_pos hx] at h
        injection h with h
        cases h
        exact ⟨by simp [hx], by simp⟩
      · rw [if_neg hx] at h
        cases hs : splitAtChar c xs with
        | none => rw [hs] at h; cases h
        | some p =>
            rw [hs, Option.map_some'] at h
            injection h with h
            obtain ⟨hp, hnot⟩ := ih p.1 p.2 (by rw [hs])
            cases h
            constructor
            · rw [List.cons_append, ← hp]
            · intro hmem
              rcases List.mem_cons.mp hmem with hmem | hmem
              · exact hx hmem.symm
              · exact hnot hmem

/-- splitAtChar succeeds on a list assembled around the separator when the
prefix avoids it. -/
lemma splitAtChar_append (c : Char) :
    ∀ (l₁ l₂ : List Char), c ∉ l₁ →
      splitAtChar c (l₁ ++ c :: l₂) = some (l₁, l₂) := by
  intro l₁
  induction l₁ with
  | nil =>
      intro l₂ _
      show splitAtChar c (c :: l₂) = some ([], l₂)
      unfold splitAtChar
      rw [if_pos rfl]
  | cons a l₁' ih =>
      intro l₂ h
      have ha : a ≠ c := fun hac => h (by rw [hac]; exact List.mem_cons_self c l₁')
      show splitAtChar c (a :: (l₁' ++ c :: l₂)) = some (a :: l₁', l₂)
      unfold splitAtChar
      rw [if_neg (fun hc => ha hc),
        ih l₂ (fun hm => h (List.mem_cons_of_mem a hm)), Option.map_some']

/-- A list has a dot strictly inside it exactly when it splits around a dot
with non-empty halves. -/
lemma hasInnerDot_iff (ys : List Char) :
    hasInnerDot ys = true ↔ ∃ m r, ys = m ++ '.' :: r ∧ m ≠ [] ∧ r ≠ [] := by
  unfold hasInnerDot
  rw [List.any_eq_true]
  constructor
  · rintro ⟨x, hx, hdot⟩
    have hxd : x = '.' := of_decide_eq_true hdot
    subst hxd
    obtain ⟨i, hi, hget⟩ := List.mem_iff_getElem.mp hx
    have hilen : i < ys.length - 2 := by
      have := hi
      rw [List.length_dropLast, List.length_drop] at this
      omega
    have hlt : i + 1 < ys.length := by omega
    have hget2 : ys[i + 1] = '.' := by
      rw [List.getElem_dropLast, List.getElem_drop] at hget
      have h1i : 1 + i = i + 1 := by omega
      rw [← hget]
      congr 1
      omega
    have hsplit : ys = ys.take (i + 1) ++ '.' :: ys.drop (i + 2) := by
      have h1 := List.take_append_drop (i + 1) ys
      rw [List.drop_eq_getElem_cons hlt, hget2] at h1
      exact h1.symm
    refine ⟨ys.take (i + 1), ys.drop (i + 2), hsplit, ?_, ?_⟩
    · intro htake
      have hlt2 := congrArg List.length htake
      rw [List.length_take, List.length_nil] at hlt2
      omega
    · intro hdrop
      have hlt2 := congrArg List.length hdrop
      rw [List.length_drop, List.length_nil] at hlt2
      omega
  · rintro ⟨m, r, rfl, hm, hr⟩
    refine ⟨'.', ?_, by simp⟩
    have hmlen : 1 ≤ m.length := List.length_pos.mpr hm
    have hrlen : 1 ≤ r.length := List.length_pos.mpr hr
    rw [List.mem_iff_getElem]
    have htotal : (m ++ '.' :: r).length = m.length + r.length + 1 := by
      rw [List.length_append, List.length_cons]
      omega
    have hlen2 :
        (((m ++ '.' :: r).drop 1).dropLast).length = m.length + r.length - 1 := by
      rw [List.length_dropLast, List.length_drop, htotal]
      omega
    refine ⟨m.length - 1, by omega, ?_⟩
    rw [List.getElem_dropLast, List.getElem_drop]
    have hidx : 1 + (m.length - 1) = m.length := by omega
    have hbound : m.length < (m ++ '.' :: r).length := by omega
    have hfin : (m ++ '.' :: r)[m.length] = '.' := by
      rw [List.getElem_append_right (Nat.le_refl m.length)]
      simp
    simp only [hidx]
    exact hfin

/-- Shape of the strings the email regular expression of validation.ts
accepts, written as an explicit decomposition: a non-empty local part, one
`@`, a non-empty run up to some dot, and a non-empty run after it, all
characters outside whitespace and `@` (dots may repeat and be adjacent). -/
def emailShape (s : String) : Prop :=
  ∃ l m r : List Char,
    s.toList = l ++ '@' :: (m ++ '.' :: r) ∧
    l ≠ [] ∧ m ≠ [] ∧ r ≠ [] ∧
    (∀ c ∈ l, emailOkChar c = true) ∧
    (∀ c ∈ m, emailOkChar c = true) ∧
    (∀ c ∈ r, emailOkChar c = true)

/-- The executable regex model accepts exactly the strings of emailShape. -/
lemma emailRegexMatches_iff (s : String) :
    emailRegexMatches s = true ↔ emailShape s := by
  unfold emailRegexMatches emailShape
  cases h : splitAtChar '@' s.toList with
  | none =>
      constructor
      · intro hf; cases hf
      · rintro ⟨l, m, r, heq, -, -, -, hlok, -, -⟩
        have hnot : '@' ∉ l := fun hc => by
          have := hlok '@' hc
          exact absurd this (by decide)
        have hsome : splitAtChar '@' s.toList = some (l, m ++ '.' :: r) := by
          rw [heq]
          exact splitAtChar_append '@' l (m ++ '.' :: r) hnot
        rw [h] at hsome
        cases hsome
  | some p =>
      obtain ⟨l0, r0⟩ := p
      obtain ⟨heq0, -⟩ := splitAtChar_eq_some '@' s.toList l0 r0 h
      simp only [Bool.and_eq_true]
      constructor
      · rintro ⟨⟨⟨hne, hlall⟩, hrall⟩, hdot⟩
        obtain ⟨m, r, hr0, hm, hr⟩ := (hasInnerDot_iff r0).mp hdot
        refine ⟨l0, m, r, by rw [heq0, hr0], ?_, hm, hr, ?_, ?_, ?_⟩
        · intro hnil
          rw [hnil] at hne
          cases hne
        · intro c hc
          exact List.all_eq_true.mp hlall c hc
        · intro c hc
          refine List.all_eq_true.mp hrall c ?_
          rw [hr0]
          exact List.mem_append_left _ hc
        · intro c hc
          refine List.all_eq_true.mp hrall c ?_
          rw [hr0]
          exact List.mem_append_right _ (List.mem_cons_of_mem _ hc)
      · rintro ⟨l, m, r, heq, hl, hm, hr, hlok, hmok, hrok⟩
        have hnot : '@' ∉ l := fun hc => by
          have := hlok '@' hc
          exact absurd this (by decide)
        have hsome : splitAtChar '@' s.toList = some (l, m ++ '.' :: r) := by
          rw [heq]
          exact splitAtChar_append '@' l (m ++ '.' :: r) hnot
        rw [h] at hsome
        injection hsome with hsome
        injection hsome with h1 h2
        subst h1
        refine ⟨⟨⟨?_, ?_⟩, ?_⟩, ?_⟩
        · cases hl0 : l0 with
          | nil => exact absurd hl0 hl
          | cons a t => rfl
        · exact List.all_eq_true.mpr hlok
        · rw [h2]
          refine List.all_eq_true.mpr ?_
          intro c hc
          rcases List.mem_append.mp hc with hc | hc
          · exact hmok c hc
          · rcases List.mem_cons.mp hc with hc | hc
            · rw [hc]; decide
            · exact hrok c hc
        · rw [h2]
          exact (hasInnerDot_iff _).mpr ⟨m, r, rfl, hm, hr⟩

/-- validateRule on an email rule over a text field fails exactly on non-empty
strings the regex rejects. -/
lemma validateRule_email_eq (msg : String) (value : FieldValue) :
    validateRule ⟨.email, none, msg⟩ value .text =
      if toStringJS value ≠ "" ∧ emailRegexMatches (toStringJS value) = false
      then some msg else none := by
  unfold validateRule
  by_cases h1 : toStringJS value = "" <;>
    cases h2 : emailRegexMatches (toStringJS value) <;>
      simp [h1, h2]

/-- Decide whether a character list is free of adjacent dots, the condition
the claim's shape adds on top of the regex's. -/
def noConsecutiveDots : List Char → Bool
  | a :: b :: rest => !(a = '.' && b = '.') && noConsecutiveDots (b :: rest)
  | _ => true

/-- C9 (amended): for a text field with a single email rule carrying a
non-empty message, validateField returns the rule's message iff the value's
string form is non-empty and cannot be decomposed as local-part `@` run `.`
run — with all three parts non-empty and free of whitespace and further `@`
characters; consecutive dots are permitted (the regex does not exclude them);
and an empty value never fails the email rule. -/
theorem claim_C9_email_rule (msg : String) (value : FieldValue) (hmsg : msg ≠ "") :
    (validateField
        ⟨"f1", .text, "Email", false, .str "", [⟨.email, none, msg⟩],
          none, false, none⟩ value = some msg ↔
      (toStringJS value ≠ "" ∧ ¬ emailShape (toStringJS value))) ∧
    (toStringJS value = "" →
      validateField
        ⟨"f1", .text, "Email", false, .str "", [⟨.email, none, msg⟩],
          none, false, none⟩ value = none) := by
  have hrule := validateRule_email_eq msg value
  constructor
  · constructor
    · intro h
      unfold validateField at h
      rw [firstError_cons, hrule] at h
      by_cases hc : toStringJS value ≠ "" ∧
          emailRegexMatches (toStringJS value) = false
      · refine ⟨hc.1, fun hshape => ?_⟩
        have := (emailRegexMatches_iff _).mpr hshape
        rw [hc.2] at this
        cases this
      · rw [if_neg hc] at h
        cases h
    · rintro ⟨hne, hnshape⟩
      have hmatch : emailRegexMatches (toStringJS value) = false := by
        cases hb : emailRegexMatches (toStringJS value) with
        | false => rfl
        | true => exact absurd ((emailRegexMatches_iff _).mp hb) hnshape
      unfold validateField
      rw [firstError_cons, hrule, if_pos ⟨hne, hmatch⟩]
      simp only [if_neg hmsg]
  · intro hempty
    unfold validateField
    rw [firstError_cons, hrule, if_neg (fun hc => hc.1 hempty)]
    rfl

/-- C9 witness: applying the amended theorem to the concrete rejected value
"a@bc" (no dot after the `@`) yields its failure characterization. -/
theorem claim_C9_witness :
    toStringJS (.str "a@bc") ≠ "" ∧ ¬ emailShape (toStringJS (.str "a@bc")) :=
  (claim_C9_email_rule "Please enter a valid email address" (.str "a@bc")
    (by decide)).1.mp rfl

/-- C9 counterexample: the value "a..b@c.d" has consecutive dots — the claim's
shape requires validateField to return the email rule's message — yet the
regex accepts it and validateField returns null. -/
theorem claim_C9_counterexample :
    validateField
      ⟨"f1", .text, "Email", false, .str "",
        [⟨.email, none, "Please enter a valid email address"⟩],
        none, false, none⟩ (.str "a..b@c.d") = none ∧
    noConsecutiveDots "a..b@c.d".toList = false ∧
    emailRegexMatches "a..b@c.d" = true ∧
    ("Please enter a valid email address" : String) ≠ "" :=
  ⟨rfl, rfl, rfl, by decide⟩

end FormBuilder
